import Mathlib

/-!
Verification of the hazard/risk data-model and GMPE layer of the
oq-engine repository, as a shallow embedding in Lean 4.

Sources embedded:
- `src/openquake/engine/db/models.py`: `build_curves`,
  `ExposureData.per_asset_value`, `LossFraction.total_fractions`,
  `loss_curve_almost_equal` / `risk_almost_equal`, the
  `output_hash`/`data_hash` properties, `OqJob.get_param`, and the
  monkeypatched `FloatField.get_prep_value`.
- `src/openquake/hazardlib/gsim/bindi_2014.py`: `_get_magnitude_scaling_term`,
  `_get_style_of_faulting_term`, the `sof_term` selection in `_get_mean` and
  the unit-conversion branch of `get_mean_and_stddevs`.

Machine floats are modelled as exact rationals (`ℚ`); the transcendental
unit-conversion formulas are stated over `ℝ` as a relation.
-/

/-! ## Hazard curve combination: `build_curves` (models.py lines 215-227)

An association row of the table `hzrdr.assoc_lt_rlz_trt_model`: for a fixed
realization there is one row per trt-model, carrying the gsim name. -/

structure AssocLtRlzTrtModel where
  trt_model_id : ℕ
  gsim : String
deriving DecidableEq

/-- A hazard curve: probabilities of exceedance indexed by (site, IML)
position, modelling the numpy array pointwise. -/
def HazardCurveArray : Type := ℕ → ℚ

/-- `build_curves(rlz, curves_by_trt_model_gsim)` from models.py: starting
from the scalar `curves = 0`, for each association `art` of the realization
set `pnes = 1 - curves_by[art.trt_model_id, art.gsim]` and
`curves = 1 - (1 - curves) * pnes`.  The realization is represented by its
list of association rows. -/
def build_curves (assocs : List AssocLtRlzTrtModel)
    (curves_by : ℕ → String → HazardCurveArray) : HazardCurveArray :=
  assocs.foldl
    (fun curves art => fun i =>
      1 - (1 - curves i) * (1 - curves_by art.trt_model_id art.gsim i))
    (fun _ => 0)

/-! ## `ExposureData.per_asset_value` (models.py lines 3228-3264) -/

/-- `ExposureData.per_asset_value`: the Python `raise ValueError` is an
`Except.error`.  `category` is `None` or a string. -/
def per_asset_value (cost : ℚ) (cost_type : String) (area : ℚ)
    (area_type : String) (number_of_units : ℚ) (category : Option String) :
    Except String ℚ :=
  if category = some "population" then Except.ok number_of_units
  else if cost_type = "aggregated" then Except.ok cost
  else if cost_type = "per_asset" then Except.ok (cost * number_of_units)
  else if cost_type = "per_area" then
    (if area_type = "aggregated" then Except.ok (cost * area)
     else if area_type = "per_asset" then
       Except.ok (cost * area * number_of_units)
     else Except.error "Invalid input")
  else Except.error "Invalid input"

/-! ## `OqJob.get_param` (models.py lines 321-342)

`missing = none` models the `RAISE_EXC` sentinel default; `missing = some m`
models an explicit fallback.  Raising `MissingParameter(name)` is modelled as
`Except.error name`.  The job's stored parameters are a lookup function. -/

def get_param {α : Type} (lookup : String → Option α) (name : String)
    (missing : Option α) : Except String α :=
  match lookup name with
  | some v => Except.ok v
  | none =>
    match missing with
    | none => Except.error name
    | some m => Except.ok m

/-! ## Monkeypatched `FloatField.get_prep_value` (models.py lines 142-153) -/

/-- `_get_prep_value`: `None` is stored as `None`; a value whose absolute
value is below `1E-300` is stored as `0.`; anything else is stored
unchanged. -/
def prep_value (value : Option ℚ) : Option ℚ :=
  match value with
  | none => none
  | some v => if |v| < 1 / 10 ^ 300 then some 0 else some v

/-! ## Bindi et al. (2014) GMPE (bindi_2014.py)

A coefficient row of `COEFFS`, restricted to the fields used by the
magnitude-scaling and style-of-faulting terms. -/

structure BindiCoeffs where
  e1 : ℚ
  b1 : ℚ
  b2 : ℚ
  b3 : ℚ
  sofN : ℚ
  sofR : ℚ
  sofS : ℚ

/-- `CONSTS["Mh"] = 6.75`, the hinge magnitude. -/
def Mh : ℚ := 27 / 4

/-- `CONSTS["Mref"] = 5.5`, the reference magnitude. -/
def Mref : ℚ := 11 / 2

/-- `_get_magnitude_scaling_term` (bindi_2014.py lines 52-61): quadratic in
`dmag = mag - Mh` when `mag < Mh`, linear otherwise. -/
def get_magnitude_scaling_term (C : BindiCoeffs) (mag : ℚ) : ℚ :=
  if mag < Mh then C.e1 + C.b1 * (mag - Mh) + C.b2 * (mag - Mh) ^ 2
  else C.e1 + C.b3 * (mag - Mh)

/-- The `SS`, `NS`, `RS` indicator assignment of
`_get_style_of_faulting_term` (bindi_2014.py lines 119-140), as the triple
`(SS, NS, RS)`. -/
def sof_indicators (rake : ℚ) : ℚ × ℚ × ℚ :=
  if |rake| ≤ 30 ∨ 180 - |rake| ≤ 30 then (1, 0, 0)
  else if 30 < rake ∧ rake < 150 then (0, 0, 1)
  else (0, 1, 0)

/-- `_get_style_of_faulting_term` returns
`C["sofN"]*NS + C["sofR"]*RS + C["sofS"]*SS`. -/
def get_style_of_faulting_term (C : BindiCoeffs) (rake : ℚ) : ℚ :=
  C.sofN * (sof_indicators rake).2.1 + C.sofR * (sof_indicators rake).2.2
    + C.sofS * (sof_indicators rake).1

/-- The `sof_term` binding of `_get_mean` (bindi_2014.py line 68):
`_get_style_of_faulting_term(C, rup) if sof else 0.`; `sof` is the
class-level flag which is `False` exactly on the `NoSOF` variants. -/
def sof_term (sof : Bool) (C : BindiCoeffs) (rake : ℚ) : ℚ :=
  if sof then get_style_of_faulting_term C rake else 0

/-- The `pga` row of `COEFFS` (fields used here). -/
def pga_coeffs : BindiCoeffs :=
  { e1 := 332819 / 100000
    b1 := -855045 / 10 ^ 7
    b2 := -925639 / 10 ^ 7
    b3 := 0
    sofN := -397695 / 10 ^ 7
    sofR := 775253 / 10 ^ 7
    sofS := -377558 / 10 ^ 7 }

/-- An intensity measure type as dispatched on by
`get_mean_and_stddevs`: its class name is `"PGA"`, `"PGV"` or `"SA"`. -/
inductive IMTKind where
  | PGA : IMTKind
  | PGV : IMTKind
  | SA : ℚ → IMTKind

/-- `imt.name` as a character list. -/
def imt_name : IMTKind → List Char
  | IMTKind.PGA => ['P', 'G', 'A']
  | IMTKind.PGV => ['P', 'G', 'V']
  | IMTKind.SA _ => ['S', 'A']

/-- Python `str.startswith` on character lists. -/
def starts_with : List Char → List Char → Bool
  | [], _ => true
  | _ :: _, [] => false
  | a :: xs, b :: ys => a == b && starts_with xs ys

/-- Python substring containment (`needle in haystack`). -/
def contains_seq (needle : List Char) : List Char → Bool
  | [] => starts_with needle []
  | b :: bs => starts_with needle (b :: bs) || contains_seq needle bs

/-- The characters of the literal `"SA PGA"`. -/
def sa_pga_str : List Char := ['S', 'A', ' ', 'P', 'G', 'A']

/-- The branch condition `imt.name in "SA PGA"` of `get_mean_and_stddevs`
(bindi_2014.py lines 199-221): Python string `in` is substring
containment. -/
def imt_in_sa_pga (imt : IMTKind) : Bool :=
  contains_seq (imt_name imt) sa_pga_str

/-- `scipy.constants.g = 9.80665`. -/
def grav : ℚ := 980665 / 100000

/-- The unit-conversion branch of `get_mean_and_stddevs`: for PGA/SA,
`mean = np.log((10.0 ** (imean - 2.0)) / g)`; for PGV,
`mean = np.log(10.0 ** imean)`.  Stated as a relation between the internal
log10 result `imean` and the returned `mean` (the transcendental functions
live in `ℝ`). -/
def converted_mean (imt : IMTKind) (imean mean : ℝ) : Prop :=
  if imt_in_sa_pga imt then
    mean = Real.log ((10 : ℝ) ^ (imean - 2) / (grav : ℝ))
  else
    mean = Real.log ((10 : ℝ) ^ imean)

/-! ## `LossFraction.total_fractions` (models.py lines 2300-2334)

A `riskr.loss_fraction_data` row is a `(value, absolute_loss)` pair; the SQL
`GROUP BY value` with `sum(absolute_loss)` is modelled by `bin_values` /
`bin_loss`. -/

/-- The distinct `value` keys of the rows (SQL `GROUP BY value`). -/
def bin_values (rows : List (String × ℚ)) : List String :=
  (rows.map Prod.fst).dedup

/-- `sum(absolute_loss)` of the rows grouped under value `v`. -/
def bin_loss (rows : List (String × ℚ)) (v : String) : ℚ :=
  ((rows.filter (fun r => r.1 == v)).map Prod.snd).sum

/-- The `total` aggregate `Sum('absolute_loss')` over all rows (`None`
on an empty table and `0` both behave as falsy, modelled as `0`). -/
def grand_total (rows : List (String × ℚ)) : ℚ :=
  (rows.map Prod.snd).sum

/-- An entry of the returned ordered dict: display bin, then the
`(absolute_loss, fraction)` pair (the namedtuple field `loss`). -/
def entry_loss (e : String × ℚ × ℚ) : ℚ := e.2.1

def entry_fraction (e : String × ℚ × ℚ) : ℚ := e.2.2

def entry_bin (e : String × ℚ × ℚ) : String := e.1

/-- The comparison of `sorted(..., key=attrgetter('loss'), reverse=True)`:
descending lexicographic order on the `(absolute_loss, fraction)` pair. -/
def fraction_desc (a b : String × ℚ × ℚ) : Bool :=
  decide (b.2.1 < a.2.1 ∨ (b.2.1 = a.2.1 ∧ b.2.2 ≤ a.2.2))

/-- Descending order in the absolute-loss component. -/
def loss_desc (a b : String × ℚ × ℚ) : Prop := entry_loss b ≤ entry_loss a

/-- `LossFraction.total_fractions`: empty dict when the total is falsy,
otherwise one entry per distinct value, carrying
`(display_value(value), (loss, loss / total))`, sorted descending.
`dv` is `display_value(·, rc)` (the identity for the taxonomy variable). -/
def total_fractions (dv : String → String) (rows : List (String × ℚ)) :
    List (String × ℚ × ℚ) :=
  if grand_total rows = 0 then []
  else
    List.mergeSort
      ((bin_values rows).map
        (fun v => (dv v, bin_loss rows v, bin_loss rows v / grand_total rows)))
      fraction_desc

/-- Concrete loss-fraction rows used by the `total_fractions` witness. -/
def rows_w : List (String × ℚ) := [("RC", 2), ("W", 3), ("RC", 4)]

/-! ## `loss_curve_almost_equal` / `risk_almost_equal`
(models.py lines 156-172) -/

/-- `RISK_RTOL = 0.05`. -/
def RISK_RTOL : ℚ := 5 / 100

/-- `RISK_ATOL = 0.01`. -/
def RISK_ATOL : ℚ := 1 / 100

/-- A loss-curve object as consumed by `loss_curve_almost_equal`:
`asset_value` is `none` when the attribute is absent
(`getattr(curve, 'asset_value', None)`). -/
structure LossCurveRecord where
  asset_value : Option ℚ
  loss_ratios : List ℚ
  losses : List ℚ
  poes : List ℚ

/-- `numpy.testing.assert_allclose(actual, desired, rtol, atol)` as a
boolean: shapes match and elementwise
`|actual - desired| <= atol + rtol * |desired|`. -/
def allclose (actual desired : List ℚ) (rtol atol : ℚ) : Bool :=
  (actual.length == desired.length) &&
    (actual.zip desired).all
      (fun p => decide (|p.1 - p.2| ≤ atol + rtol * |p.2|))

/-- Modelled from the spec: `scipy.interpolate.interp1d(xs, ys,
bounds_error=False, fill_value=0)` — the interpolation primitive is a
library call outside the repository.  Piecewise-linear interpolation over
the (sorted) abscissae with value 0 outside the bounds. -/
def interp1d_fill0 (pts : List (ℚ × ℚ)) (x : ℚ) : ℚ :=
  match pts with
  | [] => 0
  | [p] => if x = p.1 then p.2 else 0
  | p :: q :: rest =>
    if x < p.1 then 0
    else if x ≤ q.1 then p.2 + (q.2 - p.2) * (x - p.1) / (q.1 - p.1)
    else interp1d_fill0 (q :: rest) x

/-- `curve.losses[curve.losses > 0].any()`. -/
def any_pos (l : List ℚ) : Bool := l.any (fun x => decide (0 < x))

/-- `loss_curve_almost_equal(curve, expected_curve)`:
both asset values exactly 0 → compare loss-ratio arrays; some loss
positive → interpolate the curve's PoEs onto the expected losses; otherwise
compare an all-zero vector against the expected PoEs.  The
`assert_allclose` tolerances are `RISK_RTOL`/`RISK_ATOL`. -/
def loss_curve_almost_equal (curve expected : LossCurveRecord) : Bool :=
  if curve.asset_value == some 0 && expected.asset_value == some 0 then
    allclose curve.loss_ratios expected.loss_ratios RISK_RTOL RISK_ATOL
  else if any_pos curve.losses then
    allclose
      (expected.losses.map (interp1d_fill0 (curve.losses.zip curve.poes)))
      expected.poes RISK_RTOL RISK_ATOL
  else
    allclose (List.replicate expected.poes.length 0) expected.poes
      RISK_RTOL RISK_ATOL

/-- A curve whose losses are all zero (asset value present and nonzero). -/
def zero_losses_curve : LossCurveRecord :=
  { asset_value := some 1
    loss_ratios := [0, 0]
    losses := [0, 0]
    poes := [1 / 2, 1 / 2] }

/-- An expected curve with small but nonzero PoEs. -/
def small_poe_curve : LossCurveRecord :=
  { asset_value := some 1
    loss_ratios := [0, 0]
    losses := [1, 2]
    poes := [1 / 200, 1 / 200] }

/-! ## Output identity hashing (models.py lines 2578-2626 and 2705-2734)

The heterogeneous members of an `output_hash`/`data_hash` tuple. -/

structure HazardMetadata where
  investigation_time : Option ℚ
  statistics : Option String
  quantile : Option ℚ
  sm_lt_path : List String
  gsim_lt_path : List String
deriving DecidableEq

inductive HashVal where
  | s : String → HashVal
  | os : Option String → HashVal
  | oq : Option ℚ → HashVal
  | b : Bool → HashVal
  | n : ℕ → HashVal
  | meta : HazardMetadata → HashVal
deriving DecidableEq

/-- An `uiapi.output` row: only the fields entering the hashes.
`hazard_metadata` is built from investigation time, statistics kind,
quantile and the logic-tree paths — no database ids. -/
structure Output where
  output_type : String
  hazard_metadata : HazardMetadata

/-- An `hzrdr.ses_rupture` row: `id` is the database-assigned primary key,
`tag` is the deterministic cross-run identity string. -/
structure SESRupture where
  id : ℕ
  tag : String

structure EventLoss where
  output : Output
  loss_type : String

/-- `EventLoss.output_hash = (output_type, hazard_metadata, loss_type)`. -/
def EventLoss.output_hash (el : EventLoss) : List HashVal :=
  [HashVal.s el.output.output_type,
   HashVal.meta el.output.hazard_metadata,
   HashVal.s el.loss_type]

structure EventLossData where
  id : ℕ
  event_loss : EventLoss
  rupture : SESRupture
  aggregate_loss : ℚ

/-- `EventLossData.data_hash = event_loss.output_hash + (rupture_id,)` —
the db-assigned foreign key, not the rupture tag. -/
def EventLossData.data_hash (d : EventLossData) : List HashVal :=
  d.event_loss.output_hash ++ [HashVal.n d.rupture.id]

structure LossCurve where
  id : ℕ
  output : Output
  statistics : Option String
  quantile : Option ℚ
  aggregate : Bool
  insured : Bool
  loss_type : String

/-- `LossCurve.output_hash = (output_type, hazard_metadata, statistics,
quantile, aggregate, insured, loss_type)`. -/
def LossCurve.output_hash (lc : LossCurve) : List HashVal :=
  [HashVal.s lc.output.output_type,
   HashVal.meta lc.output.hazard_metadata,
   HashVal.os lc.statistics, HashVal.oq lc.quantile,
   HashVal.b lc.aggregate, HashVal.b lc.insured,
   HashVal.s lc.loss_type]

structure LossCurveData where
  id : ℕ
  loss_curve : LossCurve
  asset_ref : String
  asset_value : ℚ

/-- `LossCurveData.data_hash = loss_curve.output_hash + (asset_ref,)`. -/
def LossCurveData.data_hash (d : LossCurveData) : List HashVal :=
  d.loss_curve.output_hash ++ [HashVal.s d.asset_ref]

/-- Hazard metadata shared by the two runs below. -/
def hm_w : HazardMetadata :=
  { investigation_time := some 50
    statistics := none
    quantile := none
    sm_lt_path := ["b1"]
    gsim_lt_path := ["b11"] }

def event_loss_w : EventLoss := ⟨⟨"event_loss", hm_w⟩, "structural"⟩

/-- The same semantic event-loss row as produced by two independent runs:
identical rupture tag and aggregate loss, different db-assigned rupture
ids. -/
def eld_run1 : EventLossData :=
  ⟨1, event_loss_w, ⟨101, "col=01|ses=0001|src=1|rup=001-01"⟩, 10⟩

def eld_run2 : EventLossData :=
  ⟨2, event_loss_w, ⟨202, "col=01|ses=0001|src=1|rup=001-01"⟩, 10⟩

def loss_curve_w : LossCurve :=
  ⟨3, ⟨"loss_curve", hm_w⟩, none, none, false, false, "structural"⟩

def loss_curve_w2 : LossCurve :=
  ⟨4, ⟨"loss_curve", hm_w⟩, none, none, false, false, "structural"⟩

/-- The same semantic loss-curve row from two runs: different db ids, same
asset ref. -/
def lcd_run1 : LossCurveData := ⟨5, loss_curve_w, "a1", 100⟩

def lcd_run2 : LossCurveData := ⟨6, loss_curve_w2, "a1", 100⟩

/-- Concrete curve lookup used by the `build_curves` witness. -/
def curves_by_w : ℕ → String → HazardCurveArray :=
  fun t _ _ => 1 / (t + 2 : ℚ)

/-- Concrete parameter table used by the `get_param` witness. -/
def lookup_w : String → Option ℕ :=
  fun n => if n = "investigation_time" then some 50 else none

/-! ## Theorems -/

theorem build_curves_foldl_eq (assocs : List AssocLtRlzTrtModel)
    (curves_by : ℕ → String → HazardCurveArray) (c0 : HazardCurveArray)
    (i : ℕ) :
    (assocs.foldl
      (fun curves art => fun i =>
        1 - (1 - curves i) * (1 - curves_by art.trt_model_id art.gsim i))
      c0) i
      = 1 - (1 - c0 i) *
          (assocs.map
            (fun a => 1 - curves_by a.trt_model_id a.gsim i)).prod := by
  induction assocs generalizing c0 with
  | nil => simp
  | cons a as ih =>
    simp only [List.foldl_cons, List.map_cons, List.prod_cons]
    rw [ih]
    ring

/-- C1: `build_curves` returns `1 − ∏ (1 − trt_curve)` over the
realization's associations; with zero associations it is the zero curve;
with a single association it returns that trt-model curve unchanged; and the
result is invariant under permutation of the association rows. -/
theorem build_curves_spec (assocs : List AssocLtRlzTrtModel)
    (curves_by : ℕ → String → HazardCurveArray) :
    (∀ i, build_curves assocs curves_by i
        = 1 - (assocs.map
            (fun a => 1 - curves_by a.trt_model_id a.gsim i)).prod)
    ∧ (∀ i, build_curves [] curves_by i = 0)
    ∧ (∀ a i, build_curves [a] curves_by i
        = curves_by a.trt_model_id a.gsim i)
    ∧ (∀ assocs2 : List AssocLtRlzTrtModel, assocs.Perm assocs2 →
        build_curves assocs curves_by = build_curves assocs2 curves_by) := by
  refine ⟨?_, ?_, ?_, ?_⟩
  · intro i
    have h := build_curves_foldl_eq assocs curves_by (fun _ => 0) i
    exact h.trans (by ring)
  · intro i
    rfl
  · intro a i
    have h := build_curves_foldl_eq [a] curves_by (fun _ => 0) i
    refine h.trans ?_
    simp only [List.map_cons, List.map_nil, List.prod_cons, List.prod_nil]
    ring
  · intro assocs2 hperm
    funext i
    have h1 := build_curves_foldl_eq assocs curves_by (fun _ => 0) i
    have h2 := build_curves_foldl_eq assocs2 curves_by (fun _ => 0) i
    have hp : (assocs.map
        (fun a => 1 - curves_by a.trt_model_id a.gsim i)).prod
        = (assocs2.map
            (fun a => 1 - curves_by a.trt_model_id a.gsim i)).prod :=
      (hperm.map _).prod_eq
    exact h1.trans (by rw [hp]; exact h2.symm)

theorem build_curves_spec_witness :
    build_curves [⟨1, "gA"⟩, ⟨2, "gB"⟩] curves_by_w
      = build_curves [⟨2, "gB"⟩, ⟨1, "gA"⟩] curves_by_w :=
  (build_curves_spec [⟨1, "gA"⟩, ⟨2, "gB"⟩] curves_by_w).2.2.2
    [⟨2, "gB"⟩, ⟨1, "gA"⟩]
    (List.Perm.swap (⟨2, "gB"⟩ : AssocLtRlzTrtModel) ⟨1, "gA"⟩ [])

/-- C2: `per_asset_value` case analysis: population category returns the
unit count; otherwise the cost-type/area-type combinations return
`cost`, `cost*number`, `cost*area`, `cost*area*number`, and every other
combination is a `ValueError`; with cost=10, area=2, number_of_units=3 the
four cost conventions give 10, 30, 20, 60. -/
theorem per_asset_value_spec (cost : ℚ) (cost_type : String) (area : ℚ)
    (area_type : String) (number_of_units : ℚ) (category : Option String) :
    (category = some "population" →
      per_asset_value cost cost_type area area_type number_of_units category
        = Except.ok number_of_units)
    ∧ (category ≠ some "population" → cost_type = "aggregated" →
      per_asset_value cost cost_type area area_type number_of_units category
        = Except.ok cost)
    ∧ (category ≠ some "population" → cost_type = "per_asset" →
      per_asset_value cost cost_type area area_type number_of_units category
        = Except.ok (cost * number_of_units))
    ∧ (category ≠ some "population" → cost_type = "per_area" →
        area_type = "aggregated" →
      per_asset_value cost cost_type area area_type number_of_units category
        = Except.ok (cost * area))
    ∧ (category ≠ some "population" → cost_type = "per_area" →
        area_type = "per_asset" →
      per_asset_value cost cost_type area area_type number_of_units category
        = Except.ok (cost * area * number_of_units))
    ∧ (category ≠ some "population" → cost_type ≠ "aggregated" →
        cost_type ≠ "per_asset" → cost_type ≠ "per_area" →
      per_asset_value cost cost_type area area_type number_of_units category
        = Except.error "Invalid input")
    ∧ (category ≠ some "population" → cost_type = "per_area" →
        area_type ≠ "aggregated" → area_type ≠ "per_asset" →
      per_asset_value cost cost_type area area_type number_of_units category
        = Except.error "Invalid input")
    ∧ per_asset_value 10 "aggregated" 2 "aggregated" 3 none = Except.ok 10
    ∧ per_asset_value 10 "per_asset" 2 "aggregated" 3 none = Except.ok 30
    ∧ per_asset_value 10 "per_area" 2 "aggregated" 3 none = Except.ok 20
    ∧ per_asset_value 10 "per_area" 2 "per_asset" 3 none = Except.ok 60 := by
  refine ⟨?_, ?_, ?_, ?_, ?_, ?_, ?_,
    by simp +decide [per_asset_value] <;> norm_num,
    by simp +decide [per_asset_value] <;> norm_num,
    by simp +decide [per_asset_value] <;> norm_num,
    by simp +decide [per_asset_value] <;> norm_num⟩ <;>
    intros <;> simp_all [per_asset_value]

theorem per_asset_value_spec_witness :
    per_asset_value 7 "per_area" 5 "per_asset" 2 none
      = Except.ok (7 * 5 * 2) :=
  (per_asset_value_spec 7 "per_area" 5 "per_asset" 2 none).2.2.2.2.1
    (fun h => Option.noConfusion h) rfl rfl

/-- C9: `get_param` raises `MissingParameter(name)` iff the parameter is
absent and no explicit fallback was passed; an explicit fallback is returned
instead of raising; a stored parameter is returned unchanged in both call
forms. -/
theorem get_param_spec {α : Type} (lookup : String → Option α)
    (name : String) (missing : Option α) :
    (get_param lookup name none = Except.error name ↔ lookup name = none)
    ∧ (∀ m : α, lookup name = none →
        get_param lookup name (some m) = Except.ok m)
    ∧ (∀ m e, get_param lookup name (some m) ≠ Except.error e)
    ∧ (∀ v : α, lookup name = some v →
        get_param lookup name missing = Except.ok v) := by
  refine ⟨?_, ?_, ?_, ?_⟩
  · cases h : lookup name <;> simp [get_param, h]
  · intro m h
    simp [get_param, h]
  · intro m e
    cases h : lookup name <;> simp [get_param, h]
  · intro v h
    simp [get_param, h]

theorem get_param_spec_witness :
    get_param lookup_w "investigation_time" none = Except.ok 50
    ∧ get_param lookup_w "ses_per_logic_tree_path" (some 1) = Except.ok 1 :=
  ⟨(get_param_spec lookup_w "investigation_time" none).2.2.2 50 (by decide),
   (get_param_spec lookup_w "ses_per_logic_tree_path" (some 1)).2.1 1
     (by decide)⟩

/-- C10: the monkeypatched `FloatField.get_prep_value` stores `None` as
`None`, flushes any value with `|v| < 1E-300` to exactly `0.`, and stores
every other value unchanged. -/
theorem prep_value_spec (v : ℚ) :
    prep_value none = none
    ∧ (|v| < 1 / 10 ^ 300 → prep_value (some v) = some 0)
    ∧ (¬ |v| < 1 / 10 ^ 300 → prep_value (some v) = some v) := by
  refine ⟨rfl, ?_, ?_⟩ <;> intro h
  · show (if |v| < 1 / 10 ^ 300 then some (0 : ℚ) else some v) = some 0
    rw [if_pos h]
  · show (if |v| < 1 / 10 ^ 300 then some (0 : ℚ) else some v) = some v
    rw [if_neg h]

theorem prep_value_spec_witness :
    prep_value (some (1 / 10 ^ 301)) = some 0
    ∧ prep_value (some (1 / 2)) = some (1 / 2) :=
  ⟨(prep_value_spec (1 / 10 ^ 301)).2.1
      (by rw [abs_of_nonneg (by positivity)]; norm_num),
   (prep_value_spec (1 / 2)).2.2
      (by rw [abs_of_nonneg (by norm_num)]; norm_num)⟩

/-- C3: at `mag = Mh` the magnitude-scaling term equals the quadratic-branch
expression `e1 + b1*dmag + b2*dmag^2` evaluated at `Mh` (both branches give
`e1` there since `dmag = 0`, the boundary being exclusive on the quadratic
side); below `Mh` the term is the quadratic expression and at/above `Mh` the
linear one. -/
theorem magnitude_scaling_hinge (C : BindiCoeffs) :
    get_magnitude_scaling_term C Mh
      = C.e1 + C.b1 * (Mh - Mh) + C.b2 * (Mh - Mh) ^ 2
    ∧ (∀ mag : ℚ, mag < Mh → get_magnitude_scaling_term C mag
        = C.e1 + C.b1 * (mag - Mh) + C.b2 * (mag - Mh) ^ 2)
    ∧ (∀ mag : ℚ, Mh ≤ mag → get_magnitude_scaling_term C mag
        = C.e1 + C.b3 * (mag - Mh)) := by
  refine ⟨?_, ?_, ?_⟩
  · rw [get_magnitude_scaling_term, if_neg (lt_irrefl Mh)]
    ring
  · intro mag h
    rw [get_magnitude_scaling_term, if_pos h]
  · intro mag h
    rw [get_magnitude_scaling_term, if_neg (not_lt.mpr h)]

theorem magnitude_scaling_hinge_witness :
    get_magnitude_scaling_term pga_coeffs Mh
      = pga_coeffs.e1 + pga_coeffs.b1 * (Mh - Mh)
        + pga_coeffs.b2 * (Mh - Mh) ^ 2
    ∧ get_magnitude_scaling_term pga_coeffs 6
      = pga_coeffs.e1 + pga_coeffs.b1 * (6 - Mh)
        + pga_coeffs.b2 * (6 - Mh) ^ 2
    ∧ get_magnitude_scaling_term pga_coeffs 7
      = pga_coeffs.e1 + pga_coeffs.b3 * (7 - Mh) :=
  ⟨(magnitude_scaling_hinge pga_coeffs).1,
   (magnitude_scaling_hinge pga_coeffs).2.1 6 (by rw [Mh]; norm_num),
   (magnitude_scaling_hinge pga_coeffs).2.2 7 (by rw [Mh]; norm_num)⟩

/-- C4: for any physical rake angle (|rake| ≤ 180), the style-of-faulting
indicators classify strike-slip iff `|rake| ≤ 30 ∨ abs (180 - |rake|) ≤ 30`,
reverse iff neither strike-slip nor outside `30 < rake < 150`, normal
otherwise; exactly one indicator is 1; the term is
`sofN*NS + sofR*RS + sofS*SS`; and the whole term contributes 0 when the
`sof` flag is false (the `NoSOF` variants). -/
theorem style_of_faulting_spec (C : BindiCoeffs) (rake : ℚ)
    (h : |rake| ≤ 180) :
    ((sof_indicators rake).1 = 1 ↔ |rake| ≤ 30 ∨ abs (180 - |rake|) ≤ 30)
    ∧ ((sof_indicators rake).2.2 = 1 ↔
        ¬(|rake| ≤ 30 ∨ abs (180 - |rake|) ≤ 30) ∧ (30 < rake ∧ rake < 150))
    ∧ ((sof_indicators rake).2.1 = 1 ↔
        ¬(|rake| ≤ 30 ∨ abs (180 - |rake|) ≤ 30) ∧ ¬(30 < rake ∧ rake < 150))
    ∧ (sof_indicators rake).1 + (sof_indicators rake).2.1
        + (sof_indicators rake).2.2 = 1
    ∧ ((sof_indicators rake).1 = 0 ∨ (sof_indicators rake).1 = 1)
    ∧ ((sof_indicators rake).2.1 = 0 ∨ (sof_indicators rake).2.1 = 1)
    ∧ ((sof_indicators rake).2.2 = 0 ∨ (sof_indicators rake).2.2 = 1)
    ∧ get_style_of_faulting_term C rake
        = C.sofN * (sof_indicators rake).2.1
          + C.sofR * (sof_indicators rake).2.2
          + C.sofS * (sof_indicators rake).1
    ∧ sof_term false C rake = 0
    ∧ sof_term true C rake = get_style_of_faulting_term C rake := by
  have hnn : (0 : ℚ) ≤ 180 - |rake| := by linarith
  rw [abs_of_nonneg hnn]
  by_cases h1 : |rake| ≤ 30 ∨ 180 - |rake| ≤ 30
  · have hs : sof_indicators rake = (1, 0, 0) := by
      rw [sof_indicators, if_pos h1]
    exact ⟨by rw [hs]; exact iff_of_true rfl h1,
      by rw [hs]; exact iff_of_false (by norm_num) (fun hc => hc.1 h1),
      by rw [hs]; exact iff_of_false (by norm_num) (fun hc => hc.1 h1),
      by rw [hs]; norm_num,
      by rw [hs]; right; rfl,
      by rw [hs]; left; rfl,
      by rw [hs]; left; rfl,
      rfl, rfl, rfl⟩
  · by_cases h2 : 30 < rake ∧ rake < 150
    · have hs : sof_indicators rake = (0, 0, 1) := by
        rw [sof_indicators, if_neg h1, if_pos h2]
      exact ⟨by rw [hs]; exact iff_of_false (by norm_num) h1,
        by rw [hs]; exact iff_of_true rfl ⟨h1, h2⟩,
        by rw [hs]; exact iff_of_false (by norm_num) (fun hc => hc.2 h2),
        by rw [hs]; norm_num,
        by rw [hs]; left; rfl,
        by rw [hs]; left; rfl,
        by rw [hs]; right; rfl,
        rfl, rfl, rfl⟩
    · have hs : sof_indicators rake = (0, 1, 0) := by
        rw [sof_indicators, if_neg h1, if_neg h2]
      exact ⟨by rw [hs]; exact iff_of_false (by norm_num) h1,
        by rw [hs]; exact iff_of_false (by norm_num) (fun hc => h2 hc.2),
        by rw [hs]; exact iff_of_true rfl ⟨h1, h2⟩,
        by rw [hs]; norm_num,
        by rw [hs]; left; rfl,
        by rw [hs]; right; rfl,
        by rw [hs]; left; rfl,
        rfl, rfl, rfl⟩

theorem style_of_faulting_spec_witness :
    (sof_indicators 30).1 = 1
    ∧ (sof_indicators 150).1 = 1
    ∧ (sof_indicators (1499 / 10)).2.2 = 1 :=
  ⟨(style_of_faulting_spec pga_coeffs 30
      (by rw [abs_of_nonneg (by norm_num : (0:ℚ) ≤ 30)]; norm_num)).1.mpr
      (Or.inl (by rw [abs_of_nonneg (by norm_num : (0:ℚ) ≤ 30)])),
   (style_of_faulting_spec pga_coeffs 150
      (by rw [abs_of_nonneg (by norm_num : (0:ℚ) ≤ 150)]; norm_num)).1.mpr
      (Or.inr (by
        rw [abs_of_nonneg (by norm_num : (0:ℚ) ≤ 150),
          abs_of_nonneg (by norm_num : (0:ℚ) ≤ 180 - 150)]
        norm_num)),
   (style_of_faulting_spec pga_coeffs (1499 / 10)
      (by rw [abs_of_nonneg (by norm_num : (0:ℚ) ≤ 1499 / 10)]
          norm_num)).2.1.mpr
      (by
        constructor
        · rw [abs_of_nonneg (by norm_num : (0:ℚ) ≤ 1499 / 10),
            abs_of_nonneg (by norm_num : (0:ℚ) ≤ 180 - 1499 / 10)]
          norm_num
        · norm_num)⟩

/-- C5: the returned mean is `ln(10^(imean-2) / g)` exactly when the IMT is
PGA or SA (the `imt.name in "SA PGA"` substring test), and `ln(10^imean)`
(no division by the gravitational constant) exactly when the IMT is PGV. -/
theorem mean_unit_conversion (p : ℚ) (imean mean : ℝ) :
    (converted_mean IMTKind.PGA imean mean ↔
      mean = Real.log ((10 : ℝ) ^ (imean - 2) / (grav : ℝ)))
    ∧ (converted_mean (IMTKind.SA p) imean mean ↔
      mean = Real.log ((10 : ℝ) ^ (imean - 2) / (grav : ℝ)))
    ∧ (converted_mean IMTKind.PGV imean mean ↔
      mean = Real.log ((10 : ℝ) ^ imean))
    ∧ imt_in_sa_pga IMTKind.PGA = true
    ∧ imt_in_sa_pga (IMTKind.SA p) = true
    ∧ imt_in_sa_pga IMTKind.PGV = false := by
  refine ⟨?_, ?_, ?_, rfl, rfl, rfl⟩ <;>
    simp [converted_mean, imt_in_sa_pga, imt_name, contains_seq,
      starts_with, sa_pga_str]

theorem bin_loss_cons (r : String × ℚ) (rows : List (String × ℚ))
    (v : String) :
    bin_loss (r :: rows) v = (if r.1 == v then r.2 else 0) + bin_loss rows v := by
  simp only [bin_loss, List.filter_cons]
  by_cases h : r.1 == v
  · simp [h]
  · simp [h]

theorem sum_if_zero (c : ℚ) (x : String) :
    ∀ ks : List String, x ∉ ks →
      (ks.map (fun v => if x == v then c else 0)).sum = 0 := by
  intro ks
  induction ks with
  | nil => intro _; rfl
  | cons k ks ih =>
    intro hx
    have hxk : ¬((x == k) = true) := by
      intro hb
      rw [beq_iff_eq] at hb
      rw [hb] at hx
      exact hx (List.mem_cons_self k ks)
    rw [List.map_cons, List.sum_cons, if_neg hxk, zero_add]
    exact ih (fun h => hx (List.mem_cons_of_mem k h))

theorem sum_if_single (c : ℚ) (x : String) :
    ∀ ks : List String, ks.Nodup → x ∈ ks →
      (ks.map (fun v => if x == v then c else 0)).sum = c := by
  intro ks
  induction ks with
  | nil => intro _ hx; cases hx
  | cons k ks ih =>
    intro hnd hx
    rw [List.map_cons, List.sum_cons]
    rcases List.mem_cons.mp hx with hk | hk
    · subst hk
      rw [if_pos (by simp), sum_if_zero c x ks (List.nodup_cons.mp hnd).1,
        add_zero]
    · have hxk : ¬((x == k) = true) := by
        intro hb
        rw [beq_iff_eq] at hb
        rw [hb] at hk
        exact (List.nodup_cons.mp hnd).1 hk
      rw [if_neg hxk, zero_add]
      exact ih (List.nodup_cons.mp hnd).2 hk

theorem sum_map_add_q {α : Type} (l : List α) (f g : α → ℚ) :
    (l.map (fun x => f x + g x)).sum = (l.map f).sum + (l.map g).sum := by
  induction l with
  | nil => simp
  | cons a l ih =>
    rw [List.map_cons, List.sum_cons, List.map_cons, List.sum_cons,
      List.map_cons, List.sum_cons, ih]
    ring

theorem sum_map_div_q {α : Type} (l : List α) (f : α → ℚ) (c : ℚ) :
    (l.map (fun x => f x / c)).sum = (l.map f).sum / c := by
  induction l with
  | nil => simp
  | cons a l ih =>
    rw [List.map_cons, List.sum_cons, List.map_cons, List.sum_cons, ih]
    ring

theorem sum_bin_loss (rows : List (String × ℚ)) :
    ∀ ks : List String, ks.Nodup → (∀ r ∈ rows, r.1 ∈ ks) →
      (ks.map (bin_loss rows)).sum = grand_total rows := by
  induction rows with
  | nil =>
    intro ks _ _
    have h : ks.map (bin_loss []) = ks.map (fun _ => (0 : ℚ)) :=
      List.map_congr_left (fun a _ => rfl)
    rw [h, grand_total]
    simp
  | cons r rows ih =>
    intro ks hnd hc
    have h1 : ks.map (bin_loss (r :: rows))
        = ks.map (fun v => (if r.1 == v then r.2 else 0) + bin_loss rows v) :=
      List.map_congr_left (fun v _ => bin_loss_cons r rows v)
    rw [h1, sum_map_add_q,
      sum_if_single r.2 r.1 ks hnd (hc r (List.mem_cons_self r rows)),
      ih ks hnd (fun s hs => hc s (List.mem_cons_of_mem r hs))]
    rw [grand_total, grand_total, List.map_cons, List.sum_cons]

theorem fraction_desc_trans (a b c : String × ℚ × ℚ) :
    fraction_desc a b → fraction_desc b c → fraction_desc a c := by
  simp only [fraction_desc, decide_eq_true_eq]
  intro h1 h2
  rcases h1 with h1 | ⟨e1, f1⟩
  · rcases h2 with h2 | ⟨e2, f2⟩
    · left; exact lt_trans h2 h1
    · left; rw [e2]; exact h1
  · rcases h2 with h2 | ⟨e2, f2⟩
    · left; exact e1 ▸ h2
    · right; exact ⟨e2.trans e1, le_trans f2 f1⟩

theorem fraction_desc_total (a b : String × ℚ × ℚ) :
    fraction_desc a b || fraction_desc b a := by
  simp only [fraction_desc, Bool.or_eq_true, decide_eq_true_eq]
  rcases lt_trichotomy a.2.1 b.2.1 with h | h | h
  · right; left; exact h
  · rcases le_total b.2.2 a.2.2 with hf | hf
    · left; right; exact ⟨h.symm, hf⟩
    · right; right; exact ⟨h, hf⟩
  · left; left; exact h

theorem fraction_desc_le (a b : String × ℚ × ℚ) (h : fraction_desc a b) :
    loss_desc a b := by
  simp only [fraction_desc, decide_eq_true_eq] at h
  rcases h with h | ⟨e, _⟩
  · exact le_of_lt h
  · exact le_of_eq e

/-- C6: `total_fractions` returns the empty dict iff the grand total is
zero; otherwise its entries are exactly the distinct bins with their
`(absolute_loss, fraction)` pairs, the per-bin losses sum to the grand
total, the fractions sum to 1, the entries are sorted descending by loss,
and (for an injective display conversion) the display keys are distinct. -/
theorem total_fractions_spec (dv : String → String)
    (rows : List (String × ℚ)) :
    (total_fractions dv rows = [] ↔ grand_total rows = 0)
    ∧ (grand_total rows ≠ 0 →
        ((total_fractions dv rows).map entry_loss).sum = grand_total rows
        ∧ ((total_fractions dv rows).map entry_fraction).sum = 1
        ∧ (total_fractions dv rows).Pairwise loss_desc
        ∧ (∀ v ∈ bin_values rows,
            (dv v, bin_loss rows v, bin_loss rows v / grand_total rows)
              ∈ total_fractions dv rows)
        ∧ (∀ e ∈ total_fractions dv rows, ∃ v ∈ bin_values rows,
            e = (dv v, bin_loss rows v, bin_loss rows v / grand_total rows))
        ∧ ((∀ v1 ∈ bin_values rows, ∀ v2 ∈ bin_values rows,
              dv v1 = dv v2 → v1 = v2) →
            ((total_fractions dv rows).map entry_bin).Nodup)) := by
  by_cases h0 : grand_total rows = 0
  · refine ⟨⟨fun _ => h0, fun _ => by rw [total_fractions, if_pos h0]⟩,
      fun hne => absurd h0 hne⟩
  · have htf : total_fractions dv rows
        = List.mergeSort
            ((bin_values rows).map
              (fun v =>
                (dv v, bin_loss rows v, bin_loss rows v / grand_total rows)))
            fraction_desc := by
      rw [total_fractions, if_neg h0]
    have hperm := List.mergeSort_perm
      ((bin_values rows).map
        (fun v => (dv v, bin_loss rows v, bin_loss rows v / grand_total rows)))
      fraction_desc
    have hks : ∀ r ∈ rows, r.1 ∈ bin_values rows := fun r hr =>
      List.mem_dedup.mpr (List.mem_map_of_mem Prod.fst hr)
    refine ⟨⟨fun he => ?_, fun hz => absurd hz h0⟩, fun _ => ?_⟩
    · have hlen : (bin_values rows).length = 0 := by
        have h1 : (total_fractions dv rows).length
            = (bin_values rows).length := by
          rw [htf, List.length_mergeSort, List.length_map]
        rw [← h1, he]
        rfl
      have hbv : bin_values rows = [] := List.length_eq_zero.mp hlen
      have hmf : rows.map Prod.fst = [] :=
        (List.dedup_eq_nil (rows.map Prod.fst)).mp hbv
      have hrows : rows = [] := List.map_eq_nil_iff.mp hmf
      rw [hrows] at h0
      exact absurd rfl h0
    · refine ⟨?_, ?_, ?_, ?_, ?_, ?_⟩
      · rw [htf]
        calc ((List.mergeSort
                ((bin_values rows).map
                  (fun v => (dv v, bin_loss rows v,
                    bin_loss rows v / grand_total rows)))
                fraction_desc).map entry_loss).sum
            = (((bin_values rows).map
                (fun v => (dv v, bin_loss rows v,
                  bin_loss rows v / grand_total rows))).map entry_loss).sum :=
              (hperm.map entry_loss).sum_eq
          _ = ((bin_values rows).map (fun v => bin_loss rows v)).sum := by
              rw [List.map_map]
              rfl
          _ = grand_total rows :=
              sum_bin_loss rows (bin_values rows)
                (List.nodup_dedup (rows.map Prod.fst)) hks
      · rw [htf]
        calc ((List.mergeSort
                ((bin_values rows).map
                  (fun v => (dv v, bin_loss rows v,
                    bin_loss rows v / grand_total rows)))
                fraction_desc).map entry_fraction).sum
            = (((bin_values rows).map
                (fun v => (dv v, bin_loss rows v,
                  bin_loss rows v / grand_total rows))).map
                  entry_fraction).sum :=
              (hperm.map entry_fraction).sum_eq
          _ = ((bin_values rows).map
                (fun v => bin_loss rows v / grand_total rows)).sum := by
              rw [List.map_map]
              rfl
          _ = ((bin_values rows).map (fun v => bin_loss rows v)).sum
                / grand_total rows :=
              sum_map_div_q (bin_values rows) (fun v => bin_loss rows v)
                (grand_total rows)
          _ = grand_total rows / grand_total rows := by
              rw [sum_bin_loss rows (bin_values rows)
                (List.nodup_dedup (rows.map Prod.fst)) hks]
          _ = 1 := div_self h0
      · rw [htf]
        exact List.Pairwise.imp (fun h => fraction_desc_le _ _ h)
          (List.sorted_mergeSort fraction_desc_trans fraction_desc_total _)
      · intro v hv
        rw [htf]
        exact List.mem_mergeSort.mpr (List.mem_map_of_mem _ hv)
      · intro e he
        rw [htf] at he
        obtain ⟨v, hv, hev⟩ := List.mem_map.mp (List.mem_mergeSort.mp he)
        exact ⟨v, hv, hev.symm⟩
      · intro hinj
        rw [htf]
        have hmapped : ((((bin_values rows).map
            (fun v => (dv v, bin_loss rows v,
              bin_loss rows v / grand_total rows)))).map entry_bin).Nodup := by
          rw [List.map_map]
          exact List.Nodup.map_on
            (fun x hx y hy hxy => hinj x hx y hy hxy)
            (List.nodup_dedup (rows.map Prod.fst))
        exact ((hperm.map entry_bin).nodup_iff).mpr hmapped

theorem total_fractions_spec_witness :
    ((total_fractions id rows_w).map entry_loss).sum = grand_total rows_w
    ∧ ((total_fractions id rows_w).map entry_fraction).sum = 1
    ∧ (total_fractions id rows_w).Pairwise loss_desc := by
  have h := (total_fractions_spec id rows_w).2
    (by norm_num [grand_total, rows_w])
  exact ⟨h.1, h.2.1, h.2.2.1⟩

theorem allclose_true_iff (xs ys : List ℚ) (r a : ℚ) :
    allclose xs ys r a = true ↔
      xs.length = ys.length ∧ ∀ p ∈ xs.zip ys, |p.1 - p.2| ≤ a + r * |p.2| := by
  simp only [allclose, Bool.and_eq_true, List.all_eq_true, decide_eq_true_eq,
    beq_iff_eq]

theorem zip_replicate_zero (l : List ℚ) :
    (List.replicate l.length (0 : ℚ)).zip l
      = l.map (fun x => ((0 : ℚ), x)) := by
  induction l with
  | nil => rfl
  | cons x l ih => simp [List.replicate_succ, ih]

theorem allclose_zeros_iff (l : List ℚ) (r a : ℚ) :
    allclose (List.replicate l.length 0) l r a = true ↔
      ∀ p ∈ l, |p| ≤ a + r * |p| := by
  rw [allclose_true_iff]
  constructor
  · rintro ⟨_, h⟩ p hp
    have hm : ((0 : ℚ), p) ∈ (List.replicate l.length (0 : ℚ)).zip l := by
      rw [zip_replicate_zero]
      exact List.mem_map_of_mem _ hp
    have := h ((0 : ℚ), p) hm
    simpa using this
  · intro h
    refine ⟨by simp, ?_⟩
    intro p hp
    rw [zip_replicate_zero] at hp
    obtain ⟨x, hx, hpx⟩ := List.mem_map.mp hp
    rw [← hpx]
    simpa using h x hx

theorem lcae_cond_false (c e : LossCurveRecord)
    (hav : ¬(c.asset_value = some 0 ∧ e.asset_value = some 0)) :
    (c.asset_value == some 0 && e.asset_value == some 0) = false := by
  cases h : (c.asset_value == some 0 && e.asset_value == some 0)
  · rfl
  · exact absurd (by simpa [Bool.and_eq_true, beq_iff_eq] using h) hav

theorem any_pos_false_of_all_zero (l : List ℚ) (h : ∀ x ∈ l, x = 0) :
    any_pos l = false := by
  rw [any_pos, List.any_eq_false]
  intro x hx
  rw [h x hx]
  simp

theorem lcae_branch2 (c e : LossCurveRecord)
    (hav : ¬(c.asset_value = some 0 ∧ e.asset_value = some 0))
    (hz : any_pos c.losses = false) :
    loss_curve_almost_equal c e
      = allclose (List.replicate e.poes.length 0) e.poes
          RISK_RTOL RISK_ATOL := by
  rw [loss_curve_almost_equal,
    if_neg (by rw [lcae_cond_false c e hav]; exact Bool.false_ne_true),
    if_neg (by rw [hz]; exact Bool.false_ne_true)]

/-- C7 (amended): `loss_curve_almost_equal` compares loss-ratio arrays when
both asset values are exactly 0; when no loss is positive (in particular
when all losses are 0) it compares an all-zero vector to the expected PoEs,
succeeding iff every expected PoE is within the `assert_allclose` tolerance
of zero (`|poe| ≤ atol + rtol*|poe|`), not only when they are exactly 0;
otherwise it interpolates the curve's PoEs onto the expected losses and
applies the tolerance comparison with `rtol = 0.05`, `atol = 0.01`. -/
theorem loss_curve_almost_equal_spec (c e : LossCurveRecord) :
    (c.asset_value = some 0 → e.asset_value = some 0 →
      loss_curve_almost_equal c e
        = allclose c.loss_ratios e.loss_ratios RISK_RTOL RISK_ATOL)
    ∧ (¬(c.asset_value = some 0 ∧ e.asset_value = some 0) →
        (∀ l ∈ c.losses, l = 0) →
        (loss_curve_almost_equal c e = true ↔
          ∀ p ∈ e.poes, |p| ≤ RISK_ATOL + RISK_RTOL * |p|))
    ∧ (¬(c.asset_value = some 0 ∧ e.asset_value = some 0) →
        any_pos c.losses = true →
        loss_curve_almost_equal c e
          = allclose
              (e.losses.map (interp1d_fill0 (c.losses.zip c.poes)))
              e.poes RISK_RTOL RISK_ATOL) := by
  refine ⟨?_, ?_, ?_⟩
  · intro h1 h2
    rw [loss_curve_almost_equal, if_pos (by simp [h1, h2])]
  · intro hav hz
    rw [lcae_branch2 c e hav (any_pos_false_of_all_zero c.losses hz)]
    exact allclose_zeros_iff e.poes RISK_RTOL RISK_ATOL
  · intro hav hp
    rw [loss_curve_almost_equal,
      if_neg (by rw [lcae_cond_false c e hav]; exact Bool.false_ne_true),
      if_pos hp]

theorem loss_curve_almost_equal_spec_witness :
    loss_curve_almost_equal zero_losses_curve small_poe_curve = true :=
  ((loss_curve_almost_equal_spec zero_losses_curve small_poe_curve).2.1
    (by simp [zero_losses_curve, small_poe_curve])
    (by intro l hl; simpa [zero_losses_curve] using hl)).mpr
    (by
      intro p hp
      have hp2 : p = 1 / 200 := by simpa [small_poe_curve] using hp
      rw [hp2, RISK_ATOL, RISK_RTOL,
        abs_of_nonneg (by norm_num : (0 : ℚ) ≤ 1 / 200)]
      norm_num)

/-- C7 counterexample to the claim as stated: a curve whose losses are all
zero compares successfully against an expected curve whose PoEs are small
but not all 0 (`1/200` each), because `assert_allclose(zeros, poes)` allows
`|poe| ≤ atol + rtol*|poe|`. -/
theorem loss_curve_zero_branch_counterexample :
    loss_curve_almost_equal zero_losses_curve small_poe_curve = true
    ∧ zero_losses_curve.losses = [0, 0]
    ∧ (1 / 200 : ℚ) ∈ small_poe_curve.poes
    ∧ (1 / 200 : ℚ) ≠ 0 := by
  refine ⟨?_, rfl, by simp [small_poe_curve], by norm_num⟩
  rw [lcae_branch2 zero_losses_curve small_poe_curve
    (by simp [zero_losses_curve, small_poe_curve])
    (any_pos_false_of_all_zero zero_losses_curve.losses
      (by intro l hl; simpa [zero_losses_curve] using hl))]
  refine (allclose_zeros_iff small_poe_curve.poes RISK_RTOL RISK_ATOL).mpr ?_
  intro p hp
  have hp2 : p = 1 / 200 := by simpa [small_poe_curve] using hp
  rw [hp2, RISK_ATOL, RISK_RTOL,
    abs_of_nonneg (by norm_num : (0 : ℚ) ≤ 1 / 200)]
  norm_num

/-- C8: the `output_hash`/`data_hash` tuples are built from
db-independent fields for the loss-curve rows (equal hashes across two runs
with different db ids), but `EventLossData.data_hash` appends the
db-assigned `rupture_id`, so the same semantic event-loss row (same rupture
tag, same aggregate loss, same container hash) gets different data hashes in
two independent runs — contradicting the code's own
"db-sequence independent" docstring (see the FIXME in the source). -/
theorem event_loss_hash_db_dependence :
    eld_run1.rupture.tag = eld_run2.rupture.tag
    ∧ eld_run1.aggregate_loss = eld_run2.aggregate_loss
    ∧ eld_run1.event_loss.output_hash = eld_run2.event_loss.output_hash
    ∧ eld_run1.rupture.id ≠ eld_run2.rupture.id
    ∧ eld_run1.data_hash ≠ eld_run2.data_hash
    ∧ lcd_run1.id ≠ lcd_run2.id
    ∧ lcd_run1.loss_curve.id ≠ lcd_run2.loss_curve.id
    ∧ lcd_run1.data_hash = lcd_run2.data_hash := by
  refine ⟨rfl, rfl, rfl, by decide, by decide, by decide, by decide, rfl⟩
